import Mathlib

/-!
# Verification of the pyfao56 LIRF-features soil-water core

Shallow embedding of the layered soil-water accounting engine of the
repository:

* `soil_water.py` — `SoilWater.__init__` (profile construction),
* `tools/soil_water_deficit.py` — `SoilWaterDeficit.compute_swd_from_swc`
  (deficit conversion), `SoilWaterDeficit.compute_root_zone_swd`
  (root-zone integration), `SoilWaterDeficit.__str__` (serializer) and
  `SoilWaterDeficit.loadfile` (deserializer).

Numbers are modelled by exact rationals (`ℚ`); Python exceptions
(`IndexError`, `KeyError` escaping, `NameError`, `ValueError`,
`ZeroDivisionError`) are modelled by `Option`-valued functions returning
`none`; file text is modelled as its list of characters.
-/

namespace PyFAO56

/-! ## Basic helpers shared by the embeddings -/

/-- Python `int()` applied to a (real-valued) number: truncation toward
zero. -/
def pyInt (q : ℚ) : ℤ := if 0 ≤ q then ⌊q⌋ else ⌈q⌉

/-- Round-half-to-even to the nearest integer, the tie rule of Python's
builtin `round` and of `'{:.3f}'` formatting. -/
def rhe (q : ℚ) : ℤ :=
  if q - ⌊q⌋ < 1/2 then ⌊q⌋
  else if 1/2 < q - ⌊q⌋ then ⌊q⌋ + 1
  else if ⌊q⌋ % 2 = 0 then ⌊q⌋ else ⌊q⌋ + 1

/-- Python `round(x, 3)`: round to three decimal places, ties to even. -/
def pyRound3 (q : ℚ) : ℚ := (rhe (q * 1000) : ℚ) / 1000

/-- Value of `q` after being formatted with three decimals and read
back; composition of `float` with `'{:.3f}'.format`. -/
def rnd3 (q : ℚ) : ℚ := (rhe (q * 1000) : ℚ) / 1000

/-- Effectful map over a list in the `Option` monad, written out
explicitly so proofs can unfold it: `none` as soon as one element
fails, mirroring a Python loop that raises. -/
def optMapM (f : α → Option β) : List α → Option (List β)
  | [] => some []
  | a :: l =>
    match f a with
    | none => none
    | some b =>
      match optMapM f l with
      | none => none
      | some bs => some (b :: bs)

/-! ## `SoilWater.__init__` (soil_water.py lines 81–178)

One row of the `soil_water_profile` DataFrame, indexed by the
representative depth, with the nine columns built in the constructor. -/

structure SWLayer where
  depth   : ℚ
  lrStrt  : ℚ
  lrEnd   : ℚ
  lrThck  : ℚ
  thetaFC : ℚ
  thetaIN : ℚ
  thetaWP : ℚ
  fcMm    : ℚ
  inMm    : ℚ
  wpMm    : ℚ
deriving DecidableEq, Repr, Inhabited

/-- The profile-building loop of `SoilWater.__init__` (lines 143–171).
For each index the loop reads `layer_boundaries[index]`,
`theta_fc[index]`, `theta_ini[index]`, `theta_wp[index]`; the final
`pd.DataFrame(..., index=depths)` call additionally requires the three
theta lists to have exactly the length of `depths`.  `none` models the
uncaught `IndexError`/`ValueError` raised when those lengths do not
line up; no other validation (contiguity, monotonicity) is performed by
the source. -/
def buildLayers (depths tfc tin twp : List ℚ) (bnds : List (ℚ × ℚ)) :
    Option (List SWLayer) :=
  if depths.length ≤ bnds.length ∧ tfc.length = depths.length ∧
      tin.length = depths.length ∧ twp.length = depths.length then
    some ((List.range depths.length).map (fun i =>
      let s := (bnds.getD i (0, 0)).1
      let e := (bnds.getD i (0, 0)).2
      let th := pyRound3 (e - s)
      { depth := depths.getD i 0
        lrStrt := s
        lrEnd := e
        lrThck := th
        thetaFC := tfc.getD i 0
        thetaIN := tin.getD i 0
        thetaWP := twp.getD i 0
        fcMm := tfc.getD i 0 * 1000 * th
        inMm := tin.getD i 0 * 1000 * th
        wpMm := twp.getD i 0 * 1000 * th }))
  else none

/-- Outcome of `SoilWater.__init__` when called without a filepath. -/
inductive InitOutcome where
  /-- The `elif` branch ran to completion: `soil_water_profile` holds
  the given layers. -/
  | built (profile : List SWLayer)
  /-- The `else` branch: the constructor printed a usage message and
  returned normally, leaving the object without a profile. -/
  | usage
deriving DecidableEq, Repr

/-- `SoilWater.__init__(filepath=None, ...)` (lines 131–178): when every
argument is supplied the profile is built (possibly raising on length
mismatch, modelled by `none`); when any argument is missing the code
prints a message and finishes silently (`usage`). -/
def SoilWater.init (depths tfc tin twp : Option (List ℚ))
    (bnds : Option (List (ℚ × ℚ))) : Option InitOutcome :=
  match depths, tfc, tin, twp, bnds with
  | some d, some a, some b, some c, some e => (buildLayers d a b c e).map .built
  | _, _, _, _, _ => some .usage

/-- Whether an init outcome is a fully built profile. -/
def isBuilt : Option InitOutcome → Bool
  | some (.built _) => true
  | _ => false

/-! ## The observation frame (`swcdata` / `swddata` DataFrames)

`dates` are the column labels in insertion order; each row pairs the
integer bottom depth (cm) with the list of values for the date columns,
in column order. -/

structure Frame where
  dates : List String
  rows  : List (ℤ × List ℚ)
deriving DecidableEq, Repr

/-! ## `SoilWaterDeficit.compute_swd_from_swc`
(tools/soil_water_deficit.py lines 153–179) -/

/-- Field-capacity lookup by depth key, the row alignment performed by
`self.swddata['thetaFC'] = sol.sdata['thetaFC'].copy()`: the first
entry of the profile with the given depth index. -/
def lookupFC (fc : List (ℤ × ℚ)) (d : ℤ) : Option ℚ :=
  (fc.find? (fun p => p.1 = d)).map Prod.snd

/-- The per-cell arithmetic of the conversion loop (lines 173–179): for
every date column, `(thetaFC - value).clip(lower=0)`, then the
`thetaFC` column is dropped again.  A depth of the content frame with
no matching profile entry would receive `NaN` from the pandas
alignment and poison its row; that escape from the rational model is
represented by `none`. -/
def computeSWD (f : Frame) (fc : List (ℤ × ℚ)) : Option Frame :=
  (optMapM (fun r =>
      (lookupFC fc r.1).map (fun t =>
        (r.1, r.2.map (fun v => max 0 (t - v))))) f.rows).map
    (fun rs => { dates := f.dates, rows := rs })

/-- State of the two objects touched by `compute_swd_from_swc`:
`swc.swcdata` and `self.swddata`, in that order.  Line 167
(`self.swddata = swc.swcdata`) binds both attributes to the *same*
DataFrame object, and every subsequent update (`self.swddata[cname] =
...`, `drop(..., inplace=True)`) is performed in place on that shared
object, so after the call both attributes hold the transformed frame. -/
def compute_swd_from_swc (swcdata : Frame) (fc : List (ℤ × ℚ)) :
    Option (Frame × Frame) :=
  (computeSWD swcdata fc).map (fun r => (r, r))

/-! ## `SoilWaterDeficit.compute_root_zone_swd`
(tools/soil_water_deficit.py lines 181–283) -/

/-- One row of the resulting `rzdata` DataFrame. -/
structure RZRecord where
  date    : String
  year    : String
  doy     : String
  Zr      : ℚ
  SWDr    : ℚ
  SWDrmax : ℚ
  ObsKs   : ℚ
deriving DecidableEq, Repr

/-- Lookup in `mdl.odata` by date index: `(Zr, TAW, RAW)`. -/
def lookupO (odata : List (String × ℚ × ℚ × ℚ)) (d : String) :
    Option (ℚ × ℚ × ℚ) :=
  (odata.find? (fun p => p.1 = d)).map Prod.snd

/-- Lookup in the `SWDr`/`SWDrmax` dictionaries by date key. -/
def lookupD (dict : List (String × ℚ × ℚ)) (d : String) : Option (ℚ × ℚ) :=
  (dict.find? (fun p => p.1 = d)).map Prod.snd

/-- Splitting a character list at every occurrence of `sep`, the
semantics of Python `str.split(sep)` for a one-character separator. -/
def splitChGo (sep : Char) : List Char → List Char → List (List Char)
  | [], acc => [acc]
  | c :: cs, acc =>
    if c = sep then acc :: splitChGo sep cs []
    else splitChGo sep cs (acc ++ [c])

/-- Python `s.split(sep)` for a one-character separator. -/
def splitCh (sep : Char) (s : List Char) : List (List Char) :=
  splitChGo sep s []

/-- Lines 201–204: `i.split('-')` then indices `[0]` and `[1]`; a date
key with no `'-'` raises `IndexError` (`none`). -/
def parseYD (d : String) : Option (String × String) :=
  match splitCh '-' d.data with
  | p0 :: p1 :: _ => some (String.mk p0, String.mk p1)
  | _ => none

/-- Lines 240–242: the owning layer of a one-centimeter increment is
the first depth key (in row order) whose value is `≥ cm`; `[0]` on an
empty comprehension raises `IndexError` (`none`). -/
def lyrVal (swdByLyr : List (ℤ × ℚ)) (cm : ℕ) : Option ℚ :=
  (swdByLyr.find? (fun p => (cm : ℤ) ≤ p.1)).map Prod.snd

/-- The per-date centimeter sweep (lines 238–247), accumulating `Dr`
and `Drmax`.  `zr? = none` models the local variable `Zr` never having
been assigned: the comparison `cm_inc <= Zr` then raises a `NameError`
(`none`), but only when the loop body actually runs. -/
def sweep (swdByLyr : List (ℤ × ℚ)) (zr? : Option ℚ) :
    List ℕ → ℚ → ℚ → Option (ℚ × ℚ)
  | [], dr, drmax => some (dr, drmax)
  | cm :: rest, dr, drmax =>
    match lyrVal swdByLyr cm with
    | none => none
    | some v =>
      match zr? with
      | none => none
      | some zr =>
        sweep swdByLyr zr? rest
          (if (cm : ℚ) ≤ zr then dr + v * 10 else dr) (drmax + v * 10)

/-- The date loop of lines 224–250.  The `try/except KeyError: pass`
around `Zr = rzdata.loc[mykey, 'Zr'] * 100` leaves the local variable
`Zr` holding whatever the previous iteration assigned (or unbound on
the first miss), which is threaded here as `zrSt`. -/
def computeSWDdict (odata : List (String × ℚ × ℚ × ℚ)) (cms : List ℕ) :
    List (String × List (ℤ × ℚ)) → Option ℚ → Option (List (String × ℚ × ℚ))
  | [], _ => some []
  | (d, byLyr) :: rest, zrSt =>
    let zrSt' := match lookupO odata d with
      | some (z, _, _) => some (z * 100)
      | none => zrSt
    match sweep byLyr zrSt' cms 0 0 with
    | none => none
    | some (dr, drm) =>
      match computeSWDdict odata cms rest zrSt' with
      | none => none
      | some l => some ((d, dr, drm) :: l)

/-- Line 262: `sorted([0.0, (taw - dr) / (taw - raw), 1.0])[1]`, the
middle element of the sorted three-element list. -/
def obsKs (taw raw dr : ℚ) : ℚ :=
  (List.insertionSort (· ≤ ·) [0, (taw - dr) / (taw - raw), 1]).getD 1 0

/-- Assembly of one `rzdata` row (lines 207–264) for a date of the
merged index: `Year`/`DOY` from the date key, `Zr` from the model
output, `SWDr`/`SWDrmax` from the sweep dictionaries, and `ObsKs`.
`taw = raw` raises `ZeroDivisionError` (`none`). -/
def mkRecord (odata : List (String × ℚ × ℚ × ℚ))
    (dict : List (String × ℚ × ℚ)) (d : String) : Option RZRecord :=
  match lookupO odata d, parseYD d, lookupD dict d with
  | some (zr, taw, raw), some (y, doy), some (dr, drm) =>
    if taw = raw then none
    else some ⟨d, y, doy, zr, dr, drm, obsKs taw raw dr⟩
  | _, _, _ => none

/-- `SoilWaterDeficit.compute_root_zone_swd` (lines 181–283) on the
`to_dict` form of `swddata` (date column ↦ list of (depth, value) in
row order).  `rzdata.merge(mdl.odata[['Zr']], ...)` is an inner join
that keeps the left (date) order, so the emitted rows range over the
dates of `swd` that also occur in `odata`. -/
def compute_root_zone_swd (swd : List (String × List (ℤ × ℚ)))
    (odata : List (String × ℚ × ℚ × ℚ)) (Zrmax : ℚ) :
    Option (List RZRecord) :=
  let dates := swd.map Prod.fst
  match optMapM parseYD dates with
  | none => none
  | some _ =>
    let merged := dates.filter (fun d => (lookupO odata d).isSome)
    let cms := List.range' 1 (pyInt (Zrmax * 100 + 1) - 1).toNat
    match computeSWDdict odata cms swd none with
    | none => none
    | some dict => optMapM (mkRecord odata dict) merged

/-! ## `SoilWaterDeficit.__str__` / `loadfile`
(tools/soil_water_deficit.py lines 71–89 and 115–145)

File text is modelled as its character list; a line never contains a
newline, so joining lines with `'\n'` and re-splitting is faithful to
`readlines` followed by `strip`/`split`. -/

/-- The whitespace characters recognised by Python `str.split()`. -/
def isWS (c : Char) : Bool :=
  c = ' ' ∨ c = '\t' ∨ c = '\n' ∨ c = '\r' ∨ c = '\x0b' ∨ c = '\x0c'

/-- Emit a pending token if it is nonempty. -/
def consTok (acc : List Char) (r : List (List Char)) : List (List Char) :=
  if acc = [] then r else acc :: r

/-- Worker for `splitWS`, accumulating the current token. -/
def splitWSGo : List Char → List Char → List (List Char)
  | [], acc => consTok acc []
  | c :: cs, acc =>
    if isWS c then consTok acc (splitWSGo cs [])
    else splitWSGo cs (acc ++ [c])

/-- Python `str.split()` with no argument: maximal runs of
non-whitespace characters. -/
def splitWS (s : List Char) : List (List Char) := splitWSGo s []

/-- Decimal digits of a natural number, most significant first; Python
`'{:d}'.format`. -/
def fmtNat (n : ℕ) : List Char :=
  if n = 0 then ['0'] else (Nat.digits 10 n).reverse.map Nat.digitChar

/-- Decimal rendering of an integer. -/
def fmtInt (z : ℤ) : List Char :=
  if z < 0 then '-' :: fmtNat z.natAbs else fmtNat z.natAbs

/-- Exactly three decimal digits with leading zeros, for `m < 1000`. -/
def pad3 (m : ℕ) : List Char :=
  [Nat.digitChar (m / 100), Nat.digitChar (m / 10 % 10), Nat.digitChar (m % 10)]

/-- Python `'{:.3f}'.format`: the value rounded to three decimals
(ties to even), rendered with exactly three fractional digits.  (The
sign is taken from the rounded value, so a tiny negative that rounds
to zero renders `0.000` rather than Python's `-0.000`; both reparse to
the same value.) -/
def fmt3 (q : ℚ) : List Char :=
  let n := rhe (q * 1000)
  (if n < 0 then ['-'] else []) ++
    fmtNat (n.natAbs / 1000) ++ '.' :: pad3 (n.natAbs % 1000)

/-- Right-justification to width `w` with spaces, Python
`'{:Nd}'`/`'{:Ns}'`/`'{:N.3f}'` padding. -/
def just (w : ℕ) (s : List Char) : List Char :=
  List.replicate (w - s.length) ' ' ++ s

/-- Join lines with a newline character and no trailing newline, the
shape of the string built by `__str__`. -/
def joinLines : List (List Char) → List Char
  | [] => []
  | [l] => l
  | l :: ls => l ++ '\n' :: joinLines ls

/-- The 72-asterisk rule of the file header. -/
def astLine : List Char := List.replicate 72 '*'

/-- Second header line. -/
def titleLine1 : List Char :=
  "pyfao56: FAO-56 Evapotranspiration in Python".data

/-- Third header line. -/
def titleLine2 : List Char :=
  "Tools: Fractional Soil Water Deficit Data by Layer".data

/-- Line 5 of the file: `'Depth'` followed by each date column name
right-justified to nine characters. -/
def headerLine (dates : List String) : List Char :=
  "Depth".data ++ (dates.map (fun d => just 9 d.data)).flatten

/-- One data row as printed by `to_string(header=False, formatters=...)`
with index formatter `'{:5d}'` and value formatter `'{:8.3f}'`; pandas
separates adjacent columns with a single space. -/
def rowLine (r : ℤ × List ℚ) : List Char :=
  just 5 (fmtInt r.1) ++ (r.2.map (fun v => ' ' :: just 8 (fmt3 v))).flatten

/-- `SoilWaterDeficit.__str__` (lines 71–89): the exact text written by
`savefile`. -/
def serializeSWD (f : Frame) : List Char :=
  joinLines ([astLine, titleLine1, titleLine2, astLine,
    headerLine f.dates] ++ f.rows.map rowLine)

/-- Numeric value of a big-endian digit-character list. -/
def digitsVal (cs : List Char) : ℕ :=
  cs.foldl (fun a c => a * 10 + (c.toNat - 48)) 0

/-- Python `int()` on a stripped token consisting of decimal digits
with an optional sign; anything else raises `ValueError` (`none`). -/
def parseInt (cs : List Char) : Option ℤ :=
  match cs with
  | [] => none
  | c :: rest =>
    if c = '-' then
      if rest ≠ [] ∧ rest.all Char.isDigit then some (-(digitsVal rest : ℤ))
      else none
    else
      if (c :: rest).all Char.isDigit then some (digitsVal (c :: rest) : ℤ)
      else none

/-- Python `float()` on an unsigned fixed-notation decimal token. -/
def parseUFloat (cs : List Char) : Option ℚ :=
  match cs.dropWhile Char.isDigit with
  | [] =>
    if cs.takeWhile Char.isDigit ≠ [] then
      some (digitsVal (cs.takeWhile Char.isDigit) : ℚ)
    else none
  | c :: fp =>
    if c = '.' then
      if cs.takeWhile Char.isDigit ≠ [] ∧ fp ≠ [] ∧ fp.all Char.isDigit then
        some ((digitsVal (cs.takeWhile Char.isDigit) : ℚ) +
          (digitsVal fp : ℚ) / (10 : ℚ) ^ fp.length)
      else none
    else none

/-- Python `float()` on a fixed-notation decimal token. -/
def parseFloat (cs : List Char) : Option ℚ :=
  match cs with
  | [] => none
  | c :: rest =>
    if c = '-' then (parseUFloat rest).map Neg.neg
    else parseUFloat (c :: rest)

/-- Parsing one data line of the file (lines 139–145): the first token
is the integer depth, the next `n` tokens are the values (`IndexError`
when fewer than `n` are present, further tokens ignored). -/
def parseRow (n : ℕ) (line : List Char) : Option (ℤ × List ℚ) :=
  match splitWS line with
  | [] => none
  | t0 :: ts =>
    match parseInt t0 with
    | none => none
    | some d =>
      if ts.length < n then none
      else (optMapM parseFloat (ts.take n)).map (fun vs => (d, vs))

/-- `SoilWaterDeficit.loadfile` (lines 115–145): column names from the
tokens of line index 4 after the first, one parsed row per remaining
line. -/
def deserializeSWD (text : List Char) : Option Frame :=
  match (splitCh '\n' text).drop 4 with
  | [] => none
  | hdr :: rows =>
    let cols := (splitWS hdr).drop 1
    (optMapM (parseRow cols.length) rows).map
      (fun rs => { dates := cols.map String.mk, rows := rs })

/-! ## Helper lemmas -/

theorem optMapM_eq_some {α β : Type} {f : α → Option β} {l : List α}
    {out : List β} :
    optMapM f l = some out ↔ List.Forall₂ (fun a b => f a = some b) l out := by
  induction l generalizing out with
  | nil =>
    constructor
    · intro h
      simp only [optMapM] at h
      cases h
      exact List.Forall₂.nil
    · intro h
      cases h
      rfl
  | cons a t ih =>
    constructor
    · intro h
      simp only [optMapM] at h
      cases hfa : f a with
      | none => rw [hfa] at h; cases h
      | some b =>
        rw [hfa] at h
        cases hml : optMapM f t with
        | none => rw [hml] at h; cases h
        | some bs =>
          rw [hml] at h
          cases h
          exact List.Forall₂.cons hfa (ih.mp hml)
    · intro h
      cases h with
      | cons hab htb =>
        simp only [optMapM]
        rw [hab, ih.mpr htb]

theorem forall₂_mem_right {α β : Type} {R : α → β → Prop} {l : List α}
    {out : List β} (h : List.Forall₂ R l out) {b : β} (hb : b ∈ out) :
    ∃ a ∈ l, R a b := by
  induction h with
  | nil => cases hb
  | cons hab htb ih =>
    rcases List.mem_cons.mp hb with rfl | hb'
    · exact ⟨_, List.mem_cons_self _ _, hab⟩
    · rcases ih hb' with ⟨a, ha, hr⟩
      exact ⟨a, List.mem_cons_of_mem _ ha, hr⟩

theorem forall₂_map_right {α β : Type} {R : α → β → Prop} {g : β → α}
    {l : List α} {out : List β} (h : List.Forall₂ R l out)
    (hg : ∀ a b, R a b → g b = a) : out.map g = l := by
  induction h with
  | nil => rfl
  | cons hab htb ih => simp [ih, hg _ _ hab]

theorem insertionSort_median (x : ℚ) :
    (List.insertionSort (· ≤ ·) [0, x, 1]).getD 1 0 = max 0 (min x 1) := by
  by_cases hx0 : (0 : ℚ) ≤ x <;> by_cases hx1 : x ≤ 1 <;>
    simp only [List.insertionSort, List.orderedInsert, hx0, hx1, if_true,
      if_false, ite_true, ite_false, if_pos, if_neg, zero_le_one]
  · rw [min_eq_left hx1, max_eq_right hx0]
    simp [hx0]
  · rw [min_eq_right (by linarith : (1 : ℚ) ≤ x), max_eq_right zero_le_one]
    simp [hx1, hx0, zero_le_one]
  · rw [min_eq_left hx1, max_eq_left (by linarith : x ≤ 0)]
    simp [hx0, hx1]
  · exact absurd (le_of_not_le hx0) (by intro h; exact hx1 (by linarith))

theorem lyrVal_nonneg {byLyr : List (ℤ × ℚ)} (hnn : ∀ p ∈ byLyr, 0 ≤ p.2)
    {cm : ℕ} {v : ℚ} (h : lyrVal byLyr cm = some v) : 0 ≤ v := by
  unfold lyrVal at h
  cases hf : byLyr.find? (fun p => decide ((cm : ℤ) ≤ p.1)) with
  | none => rw [hf] at h; cases h
  | some pr =>
    rw [hf] at h
    cases h
    exact hnn pr (List.mem_of_find?_eq_some hf)

theorem sweep_cons_none {byLyr : List (ℤ × ℚ)} {cm : ℕ}
    (hv : lyrVal byLyr cm = none) (zr? : Option ℚ) (rest : List ℕ)
    (dr drmax : ℚ) : sweep byLyr zr? (cm :: rest) dr drmax = none := by
  simp only [sweep, hv]

theorem sweep_cons_some {byLyr : List (ℤ × ℚ)} {cm : ℕ} {v : ℚ}
    (hv : lyrVal byLyr cm = some v) (zr : ℚ) (rest : List ℕ) (dr drmax : ℚ) :
    sweep byLyr (some zr) (cm :: rest) dr drmax =
      sweep byLyr (some zr) rest
        (if (cm : ℚ) ≤ zr then dr + v * 10 else dr) (drmax + v * 10) := by
  simp only [sweep, hv]

theorem sweep_none {byLyr : List (ℤ × ℚ)} {cms : List ℕ} (h : cms ≠ [])
    (dr drmax : ℚ) : sweep byLyr none cms dr drmax = none := by
  cases cms with
  | nil => exact absurd rfl h
  | cons cm rest =>
    simp only [sweep]
    cases lyrVal byLyr cm <;> rfl

theorem sweep_mono {byLyr : List (ℤ × ℚ)} (hnn : ∀ p ∈ byLyr, 0 ≤ p.2)
    {z z' : ℚ} (hzz : z ≤ z') (cms : List ℕ) :
    ∀ D D' M M' : ℚ, D ≤ D' → ∀ p p',
      sweep byLyr (some z) cms D M = some p →
      sweep byLyr (some z') cms D' M' = some p' → p.1 ≤ p'.1 := by
  induction cms with
  | nil =>
    intro D D' M M' hD p p' hp hp'
    simp only [sweep] at hp hp'
    cases hp; cases hp'
    exact hD
  | cons cm rest ih =>
    intro D D' M M' hD p p' hp hp'
    cases hv : lyrVal byLyr cm with
    | none => rw [sweep_cons_none hv] at hp; cases hp
    | some v =>
      rw [sweep_cons_some hv] at hp hp'
      have hv0 : 0 ≤ v := lyrVal_nonneg hnn hv
      refine ih _ _ _ _ ?_ p p' hp hp'
      by_cases hz : (cm : ℚ) ≤ z
      · rw [if_pos hz, if_pos (le_trans hz hzz)]
        linarith
      · rw [if_neg hz]
        by_cases hz' : (cm : ℚ) ≤ z'
        · rw [if_pos hz']
          linarith
        · rw [if_neg hz']
          exact hD

theorem sweep_le {byLyr : List (ℤ × ℚ)} (hnn : ∀ p ∈ byLyr, 0 ≤ p.2)
    (cms : List ℕ) :
    ∀ (zr? : Option ℚ) (D M : ℚ), D ≤ M → ∀ p,
      sweep byLyr zr? cms D M = some p → p.1 ≤ p.2 := by
  induction cms with
  | nil =>
    intro zr? D M hDM p hp
    simp only [sweep] at hp
    cases hp
    exact hDM
  | cons cm rest ih =>
    intro zr? D M hDM p hp
    cases hv : lyrVal byLyr cm with
    | none => rw [sweep_cons_none hv] at hp; cases hp
    | some v =>
      cases zr? with
      | none => rw [sweep_none (List.cons_ne_nil _ _)] at hp; cases hp
      | some zr =>
        rw [sweep_cons_some hv] at hp
        have hv0 : 0 ≤ v := lyrVal_nonneg hnn hv
        refine ih _ _ _ ?_ p hp
        by_cases hz : (cm : ℚ) ≤ zr
        · rw [if_pos hz]; linarith
        · rw [if_neg hz]; linarith

theorem computeSWDdict_le {odata : List (String × ℚ × ℚ × ℚ)} {cms : List ℕ} :
    ∀ (swd : List (String × List (ℤ × ℚ))) (zrSt : Option ℚ)
      (dict : List (String × ℚ × ℚ)),
      (∀ c ∈ swd, ∀ p ∈ c.2, 0 ≤ p.2) →
      computeSWDdict odata cms swd zrSt = some dict →
      ∀ e ∈ dict, e.2.1 ≤ e.2.2 := by
  intro swd
  induction swd with
  | nil =>
    intro zrSt dict _ h e he
    simp only [computeSWDdict] at h
    cases h
    cases he
  | cons c rest ih =>
    intro zrSt dict hnn h e he
    obtain ⟨d, byLyr⟩ := c
    simp only [computeSWDdict] at h
    cases hsw : sweep byLyr
        (match lookupO odata d with
          | some (z, _, _) => some (z * 100)
          | none => zrSt) cms 0 0 with
    | none => rw [hsw] at h; cases h
    | some q =>
      rw [hsw] at h
      obtain ⟨dr, drm⟩ := q
      cases hrec : computeSWDdict odata cms rest
          (match lookupO odata d with
            | some (z, _, _) => some (z * 100)
            | none => zrSt) with
      | none => rw [hrec] at h; cases h
      | some l =>
        rw [hrec] at h
        cases h
        rcases List.mem_cons.mp he with rfl | he'
        · exact sweep_le (hnn _ (List.mem_cons_self _ _)) cms _ 0 0 le_rfl _ hsw
        · exact ih _ l (fun c hc => hnn c (List.mem_cons_of_mem _ hc)) hrec e he'

theorem mkRecord_spec {odata : List (String × ℚ × ℚ × ℚ)}
    {dict : List (String × ℚ × ℚ)} {d : String} {r : RZRecord}
    (h : mkRecord odata dict d = some r) :
    r.date = d ∧ ∃ zr taw raw y doy dr drm,
      lookupO odata d = some (zr, taw, raw) ∧ parseYD d = some (y, doy) ∧
      lookupD dict d = some (dr, drm) ∧ taw ≠ raw ∧
      r = ⟨d, y, doy, zr, dr, drm, obsKs taw raw dr⟩ := by
  unfold mkRecord at h
  split at h
  case _ zr taw raw y doy dr drm hO hY hD =>
    split at h
    · cases h
    · cases h
      rename_i hne
      exact ⟨rfl, zr, taw, raw, y, doy, dr, drm, hO, hY, hD, hne, rfl⟩
  case _ => cases h

theorem compute_spec {swd : List (String × List (ℤ × ℚ))}
    {odata : List (String × ℚ × ℚ × ℚ)} {Zrmax : ℚ} {out : List RZRecord}
    (h : compute_root_zone_swd swd odata Zrmax = some out) :
    ∃ dict,
      computeSWDdict odata (List.range' 1 (pyInt (Zrmax * 100 + 1) - 1).toNat)
        swd none = some dict ∧
      optMapM (mkRecord odata dict)
        ((swd.map Prod.fst).filter (fun d => (lookupO odata d).isSome)) =
        some out := by
  simp only [compute_root_zone_swd] at h
  split at h
  · cases h
  · split at h
    · cases h
    · rename_i dict hdict
      exact ⟨dict, hdict, h⟩

theorem computeSWD_spec {f : Frame} {fc : List (ℤ × ℚ)} {out : Frame}
    (h : computeSWD f fc = some out) :
    out.dates = f.dates ∧
    List.Forall₂ (fun r r' => r'.1 = r.1 ∧
      ∀ t, lookupFC fc r.1 = some t →
        r'.2 = r.2.map (fun v => max 0 (t - v))) f.rows out.rows := by
  unfold computeSWD at h
  cases hm : optMapM (fun r =>
      (lookupFC fc r.1).map (fun t =>
        (r.1, r.2.map (fun v => max 0 (t - v))))) f.rows with
  | none => rw [hm] at h; cases h
  | some rs =>
    rw [hm] at h
    cases h
    refine ⟨rfl, ?_⟩
    have hf := optMapM_eq_some.mp hm
    refine List.Forall₂.imp ?_ hf
    intro r r' hrr'
    cases hL : lookupFC fc r.1 with
    | none => rw [hL] at hrr'; cases hrr'
    | some t0 =>
      rw [hL] at hrr'
      cases hrr'
      refine ⟨rfl, ?_⟩
      intro t ht
      have ht' : t0 = t := Option.some.inj ht
      subst ht'
      rfl

/-- The concrete end-to-end scenario of spec section 8, evaluated through
the embedding: deficit series `{"2022-150": {15: 0.20, 45: 0.10}}`, model
output `Zr = 0.20 m`, `TAW = 100`, `RAW = 50` on that date, and
`Zrmax = 0.45 m`. -/
theorem eval_scenario :
    compute_root_zone_swd [("2022-150", [(15, 1/5), (45, 1/10)])]
      [("2022-150", (1/5, 100, 50))] (9/20) =
    some [{ date := "2022-150", year := "2022", doy := "150", Zr := 1/5,
            SWDr := 35, SWDrmax := 60, ObsKs := 1 }] := by
  have hcms : ((pyInt ((9 : ℚ)/20 * 100 + 1) - 1).toNat) = 45 := by
    norm_num [pyInt]
    decide
  simp only [compute_root_zone_swd, List.map, hcms]
  simp [optMapM, parseYD, splitCh, splitChGo, lookupO, List.find?, List.filter,
    computeSWDdict]
  norm_num [sweep, lyrVal, List.find?, List.range']
  simp [lookupO, parseYD, splitCh, splitChGo, lookupD, List.find?, mkRecord,
    obsKs, List.insertionSort, List.orderedInsert, optMapM]
  norm_num [RZRecord.mk.injEq]

/-! ## The claims -/

/-- C1: for the two-layer profile with bottom-depth keys 15 cm and 45 cm,
deficit series `{"2022-150": {15: 0.20, 45: 0.10}}`, root depth 0.20 m on
that date and maximum root depth 0.45 m, `compute_root_zone_swd` resolves
each centimeter to the first layer whose bottom-depth key is `≥ cm`, adds
`deficit*10` mm to `Drmax` unconditionally and to `Dr` only when
`cm ≤ Zr`, and yields exactly `SWDr = 35.0` mm and `SWDrmax = 60.0` mm
for date `"2022-150"`. -/
theorem C1_end_to_end_scenario :
    compute_root_zone_swd [("2022-150", [(15, 1/5), (45, 1/10)])]
      [("2022-150", (1/5, 100, 50))] (9/20) =
    some [{ date := "2022-150", year := "2022", doy := "150", Zr := 1/5,
            SWDr := 35, SWDrmax := 60, ObsKs := 1 }] :=
  eval_scenario

/-- C3: every record emitted by `compute_root_zone_swd` whose TAW and RAW
bounds differ carries `ObsKs = clamp((TAW - Dr) / (TAW - RAW), 0, 1)`,
hence `0 ≤ ObsKs ≤ 1`. -/
theorem C3_obsKs_clamped (swd : List (String × List (ℤ × ℚ)))
    (odata : List (String × ℚ × ℚ × ℚ)) (Zrmax : ℚ) (out : List RZRecord)
    (h : compute_root_zone_swd swd odata Zrmax = some out) :
    ∀ r ∈ out, ∀ zr taw raw, lookupO odata r.date = some (zr, taw, raw) →
      taw ≠ raw →
      r.ObsKs = max 0 (min ((taw - r.SWDr) / (taw - raw)) 1) ∧
      0 ≤ r.ObsKs ∧ r.ObsKs ≤ 1 := by
  intro r hr zr taw raw hO hne
  obtain ⟨dict, hdict, hout⟩ := compute_spec h
  obtain ⟨d, hd, hmk⟩ := forall₂_mem_right (optMapM_eq_some.mp hout) hr
  obtain ⟨hdate, zr', taw', raw', y, doy, dr, drm, hO', hY', hD', hne', hrec⟩ :=
    mkRecord_spec hmk
  rw [hdate] at hO
  rw [hO] at hO'
  simp only [Option.some.injEq, Prod.mk.injEq] at hO'
  obtain ⟨rfl, rfl, rfl⟩ := hO'
  subst hrec
  simp only [obsKs]
  rw [insertionSort_median]
  exact ⟨rfl, le_max_left _ _, max_le zero_le_one (min_le_right _ _)⟩

/-- Witness for C3 at the concrete scenario of section 8. -/
theorem C3_obsKs_clamped_witness :
    (1 : ℚ) = max 0 (min ((100 - 35) / (100 - 50)) 1) ∧
    (0 : ℚ) ≤ 1 ∧ (1 : ℚ) ≤ 1 :=
  C3_obsKs_clamped _ _ _ _ eval_scenario
    { date := "2022-150", year := "2022", doy := "150", Zr := 1/5,
      SWDr := 35, SWDrmax := 60, ObsKs := 1 }
    (List.mem_singleton.mpr rfl) (1/5) 100 50
    (by simp [lookupO, List.find?]) (by norm_num)

/-- Concrete run with two deficit-series dates of which only the first
occurs in the model output: the merge drops the second date, although
its sweep still runs (with the stale root depth of the first date). -/
theorem eval_two_dates :
    compute_root_zone_swd
      [("2022-150", [(15, 1/5)]), ("2022-151", [(15, 1/10)])]
      [("2022-150", (1/5, 100, 50))] (3/20) =
    some [{ date := "2022-150", year := "2022", doy := "150", Zr := 1/5,
            SWDr := 30, SWDrmax := 30, ObsKs := 1 }] := by
  have hcms : ((pyInt ((3 : ℚ)/20 * 100 + 1) - 1).toNat) = 15 := by
    norm_num [pyInt]
    decide
  simp only [compute_root_zone_swd, List.map, hcms]
  simp [optMapM, parseYD, splitCh, splitChGo, lookupO, List.find?, List.filter,
    computeSWDdict]
  norm_num [sweep, lyrVal, List.find?, List.range']
  simp [lookupO, parseYD, splitCh, splitChGo, lookupD, List.find?, mkRecord,
    obsKs, List.insertionSort, List.orderedInsert, optMapM]
  norm_num [RZRecord.mk.injEq]

/-- C6 counterexample: a deficit series with two dates of which only the
first occurs in the model output produces a single record, not one per
deficit-series date. -/
theorem C6_counterexample :
    (compute_root_zone_swd
        [("2022-150", [(15, 1/5)]), ("2022-151", [(15, 1/10)])]
        [("2022-150", (1/5, 100, 50))] (3/20)).map (List.map RZRecord.date) =
      some ["2022-150"] ∧
    (["2022-150"] : List String) ≠ ["2022-150", "2022-151"] := by
  rw [eval_two_dates]
  exact ⟨rfl, by decide⟩

/-- C6 amended: `compute_root_zone_swd` emits exactly one record per
deficit-series date that also occurs in the model output (the merge is
an inner join), in deficit-series date order; dates of the deficit
series absent from the model output are dropped. -/
theorem C6_amended (swd : List (String × List (ℤ × ℚ)))
    (odata : List (String × ℚ × ℚ × ℚ)) (Zrmax : ℚ) (out : List RZRecord)
    (h : compute_root_zone_swd swd odata Zrmax = some out) :
    out.map RZRecord.date =
      (swd.map Prod.fst).filter (fun d => (lookupO odata d).isSome) := by
  obtain ⟨dict, hdict, hout⟩ := compute_spec h
  exact forall₂_map_right (optMapM_eq_some.mp hout)
    (fun a b hab => (mkRecord_spec hab).1)

/-- Witness for C6 amended at the two-date run. -/
theorem C6_amended_witness :
    List.map RZRecord.date
        [{ date := "2022-150", year := "2022", doy := "150", Zr := (1:ℚ)/5,
           SWDr := 30, SWDrmax := 30, ObsKs := 1 }] =
      (([("2022-150", [((15:ℤ), (1:ℚ)/5)]),
         ("2022-151", [((15:ℤ), (1:ℚ)/10)])].map Prod.fst).filter
        (fun d => (lookupO [("2022-150", ((1:ℚ)/5, 100, 50))] d).isSome)) :=
  C6_amended _ _ _ _ eval_two_dates

/-- C7 counterexample: a deficit-series date absent from the model output
does not degrade to a `Drmax`-only contribution.  When it is the first
date, the sweep hits the unbound local `Zr` and the whole computation
raises (`none`); when an earlier date did assign `Zr`, the date is
dropped from the output entirely, contributing to nothing. -/
theorem C7_counterexample :
    compute_root_zone_swd [("2022-151", [(15, 1/10)])] [] (3/20) = none ∧
    (compute_root_zone_swd
        [("2022-150", [(15, 1/5)]), ("2022-151", [(15, 1/10)])]
        [("2022-150", (1/5, 100, 50))] (3/20)).map (List.map RZRecord.date) =
      some ["2022-150"] := by
  constructor
  · have hcms : ((pyInt ((3 : ℚ)/20 * 100 + 1) - 1).toNat) = 15 := by
      norm_num [pyInt]
      decide
    simp only [compute_root_zone_swd, List.map, hcms]
    simp [optMapM, parseYD, splitCh, splitChGo, lookupO, List.find?,
      computeSWDdict, sweep, lyrVal, List.range']
  · rw [eval_two_dates]
    rfl

/-- C7 amended: a deficit-series date absent from the model output never
yields an output record (the inner merge removes it, so its deficits
contribute to neither emitted `Dr` nor emitted `Drmax`); and when the
very first deficit-series date is absent and the centimeter range is
nonempty, the whole computation fails on the unbound root-depth
variable instead of performing the sweep. -/
theorem C7_amended :
    (∀ (swd : List (String × List (ℤ × ℚ)))
       (odata : List (String × ℚ × ℚ × ℚ)) (Zrmax : ℚ)
       (out : List RZRecord),
       compute_root_zone_swd swd odata Zrmax = some out →
       ∀ r ∈ out, (lookupO odata r.date).isSome = true) ∧
    (∀ (d : String) (byLyr : List (ℤ × ℚ))
       (rest : List (String × List (ℤ × ℚ)))
       (odata : List (String × ℚ × ℚ × ℚ)) (Zrmax : ℚ),
       lookupO odata d = none →
       List.range' 1 (pyInt (Zrmax * 100 + 1) - 1).toNat ≠ [] →
       compute_root_zone_swd ((d, byLyr) :: rest) odata Zrmax = none) := by
  constructor
  · intro swd odata Zrmax out h r hr
    obtain ⟨dict, hdict, hout⟩ := compute_spec h
    obtain ⟨d, hd, hmk⟩ := forall₂_mem_right (optMapM_eq_some.mp hout) hr
    rw [(mkRecord_spec hmk).1]
    exact (List.mem_filter.mp hd).2
  · intro d byLyr rest odata Zrmax hlook hcms
    simp only [compute_root_zone_swd, List.map]
    cases hyd : optMapM parseYD (d :: rest.map Prod.fst) with
    | none => rfl
    | some yds =>
      simp only [computeSWDdict, hlook]
      rw [sweep_none hcms]

/-- Witness for C7 amended: the record of the two-date run has its date
in the model output, and the single-date run with an absent date fails. -/
theorem C7_amended_witness :
    (lookupO [("2022-150", ((1:ℚ)/5, 100, 50))]
        ({ date := "2022-150", year := "2022", doy := "150", Zr := (1:ℚ)/5,
           SWDr := 30, SWDrmax := 30, ObsKs := 1 } : RZRecord).date).isSome =
      true ∧
    compute_root_zone_swd [("2022-151", [(15, 1/10)])] [] (3/20) = none :=
  ⟨C7_amended.1 _ _ _ _ eval_two_dates _ (List.mem_singleton.mpr rfl),
   C7_amended.2 "2022-151" [(15, 1/10)] [] [] (3/20) rfl (by
      have hcms : ((pyInt ((3 : ℚ)/20 * 100 + 1) - 1).toNat) = 15 := by
        norm_num [pyInt]
        decide
      rw [hcms]
      decide)⟩

/-- Concrete run with a negative deficit value and root depth 0 m. -/
theorem eval_neg_zr0 :
    compute_root_zone_swd [("2022-150", [(15, -1)])]
      [("2022-150", (0, 100, 50))] (3/20) =
    some [{ date := "2022-150", year := "2022", doy := "150", Zr := 0,
            SWDr := 0, SWDrmax := -150, ObsKs := 1 }] := by
  have hcms : ((pyInt ((3 : ℚ)/20 * 100 + 1) - 1).toNat) = 15 := by
    norm_num [pyInt]
    decide
  simp only [compute_root_zone_swd, List.map, hcms]
  simp [optMapM, parseYD, splitCh, splitChGo, lookupO, List.find?, List.filter,
    computeSWDdict]
  norm_num [sweep, lyrVal, List.find?, List.range']
  simp [lookupO, parseYD, splitCh, splitChGo, lookupD, List.find?, mkRecord,
    obsKs, List.insertionSort, List.orderedInsert, optMapM]
  norm_num [RZRecord.mk.injEq]

/-- Concrete run with the same negative deficit and root depth 0.10 m. -/
theorem eval_neg_zr01 :
    compute_root_zone_swd [("2022-150", [(15, -1)])]
      [("2022-150", (1/10, 100, 50))] (3/20) =
    some [{ date := "2022-150", year := "2022", doy := "150", Zr := 1/10,
            SWDr := -100, SWDrmax := -150, ObsKs := 1 }] := by
  have hcms : ((pyInt ((3 : ℚ)/20 * 100 + 1) - 1).toNat) = 15 := by
    norm_num [pyInt]
    decide
  simp only [compute_root_zone_swd, List.map, hcms]
  simp [optMapM, parseYD, splitCh, splitChGo, lookupO, List.find?, List.filter,
    computeSWDdict]
  norm_num [sweep, lyrVal, List.find?, List.range']
  simp [lookupO, parseYD, splitCh, splitChGo, lookupD, List.find?, mkRecord,
    obsKs, List.insertionSort, List.orderedInsert, optMapM]
  norm_num [RZRecord.mk.injEq]

/-- C4 counterexample: with a deficit series holding a negative value
(the data model does not clamp loaded deficits), raising the root depth
from 0 m to 0.10 m lowers `Dr` from 0 to −100 mm, and `Dr ≤ Drmax`
fails as well (−100 > −150). -/
theorem C4_counterexample :
    (compute_root_zone_swd [("2022-150", [(15, -1)])]
        [("2022-150", (0, 100, 50))] (3/20)).map
        (List.map (fun r => (r.SWDr, r.SWDrmax))) = some [(0, -150)] ∧
    (compute_root_zone_swd [("2022-150", [(15, -1)])]
        [("2022-150", (1/10, 100, 50))] (3/20)).map
        (List.map (fun r => (r.SWDr, r.SWDrmax))) = some [(-100, -150)] ∧
    ¬ ((0 : ℚ) ≤ -100) ∧ ¬ ((-100 : ℚ) ≤ -150) := by
  rw [eval_neg_zr0, eval_neg_zr01]
  refine ⟨rfl, rfl, by norm_num, by norm_num⟩

/-- C4 amended: for deficit series whose values are all nonnegative (as
produced by the deficit conversion), the per-date sweep is monotone in
the root depth and `Dr ≤ Drmax`; consequently every record emitted by
`compute_root_zone_swd` on such a series satisfies `SWDr ≤ SWDrmax`. -/
theorem C4_amended :
    (∀ byLyr : List (ℤ × ℚ), (∀ p ∈ byLyr, 0 ≤ p.2) →
      ∀ z z' : ℚ, z ≤ z' → ∀ (cms : List ℕ) (p p' : ℚ × ℚ),
        sweep byLyr (some z) cms 0 0 = some p →
        sweep byLyr (some z') cms 0 0 = some p' →
        p.1 ≤ p'.1 ∧ p.1 ≤ p.2) ∧
    (∀ (swd : List (String × List (ℤ × ℚ)))
       (odata : List (String × ℚ × ℚ × ℚ)) (Zrmax : ℚ)
       (out : List RZRecord),
       (∀ c ∈ swd, ∀ p ∈ c.2, 0 ≤ p.2) →
       compute_root_zone_swd swd odata Zrmax = some out →
       ∀ r ∈ out, r.SWDr ≤ r.SWDrmax) := by
  constructor
  · intro byLyr hnn z z' hzz cms p p' hp hp'
    exact ⟨sweep_mono hnn hzz cms 0 0 0 0 le_rfl p p' hp hp',
      sweep_le hnn cms _ 0 0 le_rfl p hp⟩
  · intro swd odata Zrmax out hnn h r hr
    obtain ⟨dict, hdict, hout⟩ := compute_spec h
    obtain ⟨d, hd, hmk⟩ := forall₂_mem_right (optMapM_eq_some.mp hout) hr
    obtain ⟨hdate, zr, taw, raw, y, doy, dr, drm, hO, hY, hD, hne, hrec⟩ :=
      mkRecord_spec hmk
    have hmem : (d, dr, drm) ∈ dict := by
      unfold lookupD at hD
      cases hf : dict.find? (fun p => decide (p.1 = d)) with
      | none => rw [hf] at hD; cases hD
      | some e =>
        rw [hf] at hD
        have he := List.mem_of_find?_eq_some hf
        have he1 : e.1 = d := by
          have := List.find?_some hf
          simpa using this
        have he2 : e.2 = (dr, drm) := by simpa using hD
        have hed : e = (d, dr, drm) := Prod.ext he1 he2
        rw [← hed]
        exact he
    have := computeSWDdict_le swd none dict hnn hdict (d, dr, drm) hmem
    subst hrec
    exact this

/-- Witness for C4 amended: the sweep of the section 8 scenario at root
depths 10 cm and 20 cm, and the record of the scenario run. -/
theorem C4_amended_witness :
    (((20 : ℚ), (60 : ℚ)).1 ≤ ((35 : ℚ), (60 : ℚ)).1 ∧
      ((20 : ℚ), (60 : ℚ)).1 ≤ ((20 : ℚ), (60 : ℚ)).2) ∧
    ({ date := "2022-150", year := "2022", doy := "150", Zr := (1:ℚ)/5,
       SWDr := 35, SWDrmax := 60, ObsKs := 1 } : RZRecord).SWDr ≤
      ({ date := "2022-150", year := "2022", doy := "150", Zr := (1:ℚ)/5,
         SWDr := 35, SWDrmax := 60, ObsKs := 1 } : RZRecord).SWDrmax :=
  ⟨C4_amended.1 [(15, 1/5), (45, 1/10)]
      (by
        intro p hp
        rcases List.mem_cons.mp hp with rfl | hp'
        · norm_num
        · rcases List.mem_singleton.mp hp' with rfl
          norm_num)
      10 20 (by norm_num) (List.range' 1 45) (20, 60) (35, 60)
      (by norm_num [sweep, lyrVal, List.find?, List.range'])
      (by norm_num [sweep, lyrVal, List.find?, List.range']),
   C4_amended.2 _ _ _ _
      (by
        intro c hc p hp
        rcases List.mem_singleton.mp hc with rfl
        rcases List.mem_cons.mp hp with rfl | hp'
        · norm_num
        · rcases List.mem_singleton.mp hp' with rfl
          norm_num)
      eval_scenario _ (List.mem_singleton.mpr rfl)⟩

/-- C2: whenever the deficit conversion succeeds (every depth of the
content series has a field-capacity entry), every cell of the result is
`max 0 (fieldCapacity[depth] - content[date, depth])`; in particular no
cell is negative, and a cell whose content reaches field capacity is
exactly 0. -/
theorem C2_deficit_formula (f : Frame) (fc : List (ℤ × ℚ)) (out : Frame)
    (h : computeSWD f fc = some out) :
    out.dates = f.dates ∧
    List.Forall₂ (fun r r' => r'.1 = r.1 ∧
      ∀ t, lookupFC fc r.1 = some t →
        r'.2 = r.2.map (fun v => max 0 (t - v)) ∧
        (∀ v ∈ r'.2, 0 ≤ v) ∧
        (∀ j, j < r.2.length → t ≤ r.2.getD j 0 → r'.2.getD j 0 = 0))
      f.rows out.rows := by
  obtain ⟨hd, hf⟩ := computeSWD_spec h
  refine ⟨hd, List.Forall₂.imp ?_ hf⟩
  rintro r r' ⟨h1, h2⟩
  refine ⟨h1, fun t ht => ?_⟩
  have he := h2 t ht
  refine ⟨he, ?_, ?_⟩
  · intro v hv
    rw [he] at hv
    obtain ⟨w, hw, rfl⟩ := List.mem_map.mp hv
    exact le_max_left _ _
  · intro j hj hle
    have hj' : j < (r.2.map (fun v => max 0 (t - v))).length := by
      simpa using hj
    rw [he, List.getD_eq_getElem _ _ hj', List.getElem_map]
    rw [List.getD_eq_getElem _ _ hj] at hle
    exact max_eq_left (by linarith)

/-- Witness for C2: one date, one layer, field capacity 0.25 and content
0.30; the deficit is clamped to exactly 0. -/
theorem C2_deficit_formula_witness :
    ({ dates := ["2022-150"], rows := [((15:ℤ), [(0:ℚ)])] } : Frame).dates =
      ({ dates := ["2022-150"], rows := [((15:ℤ), [(3:ℚ)/10])] } : Frame).dates ∧
    List.Forall₂ (fun r r' => r'.1 = r.1 ∧
      ∀ t, lookupFC [((15:ℤ), (1:ℚ)/4)] r.1 = some t →
        r'.2 = r.2.map (fun v => max 0 (t - v)) ∧
        (∀ v ∈ r'.2, 0 ≤ v) ∧
        (∀ j, j < r.2.length → t ≤ r.2.getD j 0 → r'.2.getD j 0 = 0))
      [((15:ℤ), [(3:ℚ)/10])] [((15:ℤ), [(0:ℚ)])] :=
  C2_deficit_formula
    { dates := ["2022-150"], rows := [(15, [3/10])] } [(15, 1/4)]
    { dates := ["2022-150"], rows := [(15, [0])] }
    (by
      simp [computeSWD, optMapM, lookupFC, List.find?]
      norm_num [max_def])

/-- C5 counterexample: converting a content frame with content 0.10 and
field capacity 0.30 leaves `swc.swcdata` holding the deficit 0.20: the
input frame is not identical before and after the call. -/
theorem C5_counterexample :
    compute_swd_from_swc { dates := ["2022-150"], rows := [(15, [1/10])] }
        [(15, 3/10)] =
      some ({ dates := ["2022-150"], rows := [(15, [1/5])] },
            { dates := ["2022-150"], rows := [(15, [1/5])] }) ∧
    ({ dates := ["2022-150"], rows := [(15, [1/5])] } : Frame) ≠
      { dates := ["2022-150"], rows := [(15, [1/10])] } := by
  constructor
  · simp [compute_swd_from_swc, computeSWD, optMapM, lookupFC, List.find?]
    norm_num [max_def]
  · intro hfr
    have hrows : ([((15:ℤ), [(1:ℚ)/5])] : List (ℤ × List ℚ)) =
        [(15, [1/10])] := congrArg Frame.rows hfr
    simp only [List.cons.injEq, Prod.mk.injEq, and_true, true_and] at hrows
    have : (1:ℚ)/5 = 1/10 := hrows
    norm_num at this

/-- C5 amended: `compute_swd_from_swc` computes the clamped deficit
per cell, but by in-place mutation of the aliased input: after the call
`swc.swcdata` and `self.swddata` are the same frame, holding the
deficit series (so the content series is not preserved whenever any
deficit differs from its content). -/
theorem C5_amended (swc : Frame) (fc : List (ℤ × ℚ)) (post : Frame × Frame)
    (h : compute_swd_from_swc swc fc = some post) :
    post.1 = post.2 ∧ computeSWD swc fc = some post.1 ∧
    post.1.dates = swc.dates ∧
    List.Forall₂ (fun r r' => r'.1 = r.1 ∧
      ∀ t, lookupFC fc r.1 = some t →
        r'.2 = r.2.map (fun v => max 0 (t - v))) swc.rows post.1.rows := by
  unfold compute_swd_from_swc at h
  cases hc : computeSWD swc fc with
  | none => rw [hc] at h; cases h
  | some r0 =>
    rw [hc] at h
    cases h
    obtain ⟨hd, hf⟩ := computeSWD_spec hc
    exact ⟨rfl, rfl, hd, hf⟩

/-- Witness for C5 amended at the counterexample input. -/
theorem C5_amended_witness :
    ({ dates := ["2022-150"], rows := [((15:ℤ), [(1:ℚ)/5])] } : Frame) =
      { dates := ["2022-150"], rows := [((15:ℤ), [(1:ℚ)/5])] } ∧
    computeSWD { dates := ["2022-150"], rows := [((15:ℤ), [(1:ℚ)/10])] }
        [((15:ℤ), (3:ℚ)/10)] =
      some { dates := ["2022-150"], rows := [((15:ℤ), [(1:ℚ)/5])] } ∧
    (["2022-150"] : List String) = ["2022-150"] ∧
    List.Forall₂ (fun r r' => r'.1 = r.1 ∧
      ∀ t, lookupFC [((15:ℤ), (3:ℚ)/10)] r.1 = some t →
        r'.2 = r.2.map (fun v => max 0 (t - v)))
      [((15:ℤ), [(1:ℚ)/10])] [((15:ℤ), [(1:ℚ)/5])] :=
  C5_amended { dates := ["2022-150"], rows := [(15, [1/10])] } [(15, 3/10)]
    ({ dates := ["2022-150"], rows := [(15, [1/5])] },
     { dates := ["2022-150"], rows := [(15, [1/5])] })
    (by
      simp [compute_swd_from_swc, computeSWD, optMapM, lookupFC, List.find?]
      norm_num [max_def])

/-- C8 (divergence of the code from the claim): with `theta_wp` missing,
`SoilWater.__init__` prints a usage message and returns normally — no
`ConfigurationError`, with the object left without a profile; and with
non-contiguous layer boundaries `(0, 0.15), (0.30, 0.45)` a profile is
built with no validation and no error at all. -/
theorem C8_silent_construction :
    SoilWater.init (some [3/20]) (some [3/10]) (some [1/10]) none
        (some [(0, 3/20)]) = some InitOutcome.usage ∧
    isBuilt (SoilWater.init (some [3/20, 3/10]) (some [3/10, 1/4])
        (some [1/10, 1/10]) (some [1/20, 1/20])
        (some [(0, 3/20), (3/10, 9/20)])) = true := by
  decide

/-- C10: every layer of a successfully built profile has thickness
`round(layerEnd - layerStart, 3)` and depth-equivalents
`theta * 1000 * thickness` millimeters for field capacity, initial
content and wilting point. -/
theorem C10_mm_conversion (depths tfc tin twp : List ℚ)
    (bnds : List (ℚ × ℚ)) (p : List SWLayer)
    (h : buildLayers depths tfc tin twp bnds = some p) :
    ∀ i, i < p.length →
      (p.getD i default).lrThck =
        pyRound3 ((bnds.getD i (0, 0)).2 - (bnds.getD i (0, 0)).1) ∧
      (p.getD i default).fcMm =
        tfc.getD i 0 * 1000 * (p.getD i default).lrThck ∧
      (p.getD i default).inMm =
        tin.getD i 0 * 1000 * (p.getD i default).lrThck ∧
      (p.getD i default).wpMm =
        twp.getD i 0 * 1000 * (p.getD i default).lrThck := by
  unfold buildLayers at h
  split at h
  · cases h
    intro i hi
    rw [List.getD_eq_getElem _ _ hi, List.getElem_map, List.getElem_range]
    exact ⟨rfl, rfl, rfl, rfl⟩
  · cases h

/-- Witness for C10: a single layer with boundaries `(0, 0.30)` and
`thetaFC = 0.20`; its field-capacity depth-equivalent is exactly
60.0 mm. -/
theorem C10_mm_conversion_witness :
    ((([{ depth := (3:ℚ)/20, lrStrt := 0, lrEnd := 3/10,
          lrThck := pyRound3 (3/10 - 0), thetaFC := 1/5, thetaIN := 1/10,
          thetaWP := 1/20, fcMm := 1/5 * 1000 * pyRound3 (3/10 - 0),
          inMm := 1/10 * 1000 * pyRound3 (3/10 - 0),
          wpMm := 1/20 * 1000 * pyRound3 (3/10 - 0) }] : List SWLayer).getD 0
        default).lrThck =
      pyRound3 ((([((0:ℚ), (3:ℚ)/10)].getD 0 (0, 0)).2 -
        ([((0:ℚ), (3:ℚ)/10)].getD 0 (0, 0)).1)) ∧
     (([{ depth := (3:ℚ)/20, lrStrt := 0, lrEnd := 3/10,
          lrThck := pyRound3 (3/10 - 0), thetaFC := 1/5, thetaIN := 1/10,
          thetaWP := 1/20, fcMm := 1/5 * 1000 * pyRound3 (3/10 - 0),
          inMm := 1/10 * 1000 * pyRound3 (3/10 - 0),
          wpMm := 1/20 * 1000 * pyRound3 (3/10 - 0) }] : List SWLayer).getD 0
        default).fcMm =
      [(1:ℚ)/5].getD 0 0 * 1000 *
        (([{ depth := (3:ℚ)/20, lrStrt := 0, lrEnd := 3/10,
             lrThck := pyRound3 (3/10 - 0), thetaFC := 1/5, thetaIN := 1/10,
             thetaWP := 1/20, fcMm := 1/5 * 1000 * pyRound3 (3/10 - 0),
             inMm := 1/10 * 1000 * pyRound3 (3/10 - 0),
             wpMm := 1/20 * 1000 * pyRound3 (3/10 - 0) }] : List SWLayer).getD 0
          default).lrThck) ∧
    (([{ depth := (3:ℚ)/20, lrStrt := 0, lrEnd := 3/10,
         lrThck := pyRound3 (3/10 - 0), thetaFC := 1/5, thetaIN := 1/10,
         thetaWP := 1/20, fcMm := 1/5 * 1000 * pyRound3 (3/10 - 0),
         inMm := 1/10 * 1000 * pyRound3 (3/10 - 0),
         wpMm := 1/20 * 1000 * pyRound3 (3/10 - 0) }] : List SWLayer).getD 0
        default).fcMm = 60 := by
  obtain ⟨h1, h2, h3, h4⟩ :=
    C10_mm_conversion [3/20] [1/5] [1/10] [1/20] [(0, 3/10)]
      [{ depth := (3:ℚ)/20, lrStrt := 0, lrEnd := 3/10,
         lrThck := pyRound3 (3/10 - 0), thetaFC := 1/5, thetaIN := 1/10,
         thetaWP := 1/20, fcMm := 1/5 * 1000 * pyRound3 (3/10 - 0),
         inMm := 1/10 * 1000 * pyRound3 (3/10 - 0),
         wpMm := 1/20 * 1000 * pyRound3 (3/10 - 0) }] rfl 0 (by decide)
  refine ⟨⟨h1, h2⟩, ?_⟩
  show (1:ℚ)/5 * 1000 * pyRound3 (3/10 - 0) = 60
  norm_num [pyRound3, rhe]

/-! ## Round-trip lemmas for the serializer (claim C9) -/

theorem ws_not_digit {c : Char} (h : isWS c = true) : c.isDigit = false := by
  simp only [isWS, Bool.or_eq_true, decide_eq_true_eq] at h
  rcases h with h | h | h | h | h | h <;> subst h <;> decide

theorem digit_not_ws {c : Char} (h : c.isDigit = true) : isWS c = false := by
  cases hw : isWS c with
  | false => rfl
  | true => rw [ws_not_digit hw] at h; cases h

theorem not_ws_ne_newline {c : Char} (h : isWS c = false) : c ≠ '\n' := by
  rintro rfl
  cases h

theorem digitChar_isDigit {d : ℕ} (h : d < 10) :
    (Nat.digitChar d).isDigit = true := by
  interval_cases d <;> decide

theorem digitChar_toNat {d : ℕ} (h : d < 10) :
    (Nat.digitChar d).toNat = 48 + d := by
  interval_cases d <;> decide

theorem fmtNat_ne_nil (n : ℕ) : fmtNat n ≠ [] := by
  unfold fmtNat
  split
  · exact List.cons_ne_nil _ _
  · rename_i hn
    intro h
    rw [List.map_eq_nil_iff, List.reverse_eq_nil_iff] at h
    exact hn (Nat.digits_eq_nil_iff_eq_zero.mp h)

theorem fmtNat_digits {n : ℕ} : ∀ c ∈ fmtNat n, c.isDigit = true := by
  intro c hc
  unfold fmtNat at hc
  split at hc
  · rcases List.mem_singleton.mp hc with rfl
    decide
  · obtain ⟨d, hd, rfl⟩ := List.mem_map.mp hc
    exact digitChar_isDigit
      (Nat.digits_lt_base (by norm_num) (List.mem_reverse.mp hd))

theorem foldl_digit_chars (l : List ℕ) (a : ℕ) (h : ∀ d ∈ l, d < 10) :
    List.foldl (fun a c => a * 10 + (c.toNat - 48)) a (l.map Nat.digitChar) =
      List.foldl (fun a d => a * 10 + d) a l := by
  induction l generalizing a with
  | nil => rfl
  | cons d l ih =>
    simp only [List.map_cons, List.foldl_cons]
    rw [digitChar_toNat (h d (List.mem_cons_self _ _))]
    have : a * 10 + (48 + d - 48) = a * 10 + d := by omega
    rw [this]
    exact ih _ (fun e he => h e (List.mem_cons_of_mem _ he))

theorem foldl_reverse_ofDigits (L : List ℕ) :
    List.foldl (fun a d => a * 10 + d) 0 L.reverse = Nat.ofDigits 10 L := by
  induction L with
  | nil => rfl
  | cons d L ih =>
    rw [List.reverse_cons, List.foldl_append, ih, Nat.ofDigits_cons]
    simp only [List.foldl_cons, List.foldl_nil]
    ring

theorem digitsVal_fmtNat (n : ℕ) : digitsVal (fmtNat n) = n := by
  unfold fmtNat digitsVal
  split
  · rename_i hn
    subst hn
    decide
  · rw [foldl_digit_chars _ _
      (fun d hd => Nat.digits_lt_base (by norm_num) (List.mem_reverse.mp hd))]
    rw [foldl_reverse_ofDigits, Nat.ofDigits_digits]

theorem pad3_digits {m : ℕ} (h : m < 1000) :
    ∀ c ∈ pad3 m, c.isDigit = true := by
  intro c hc
  simp only [pad3, List.mem_cons, List.not_mem_nil, or_false] at hc
  rcases hc with rfl | rfl | rfl
  · exact digitChar_isDigit (by omega)
  · exact digitChar_isDigit (by omega)
  · exact digitChar_isDigit (Nat.mod_lt _ (by norm_num))

theorem digitsVal_pad3 {m : ℕ} (h : m < 1000) : digitsVal (pad3 m) = m := by
  unfold pad3 digitsVal
  simp only [List.foldl_cons, List.foldl_nil]
  rw [digitChar_toNat (by omega : m / 100 < 10),
    digitChar_toNat (by omega : m / 10 % 10 < 10),
    digitChar_toNat (Nat.mod_lt _ (by norm_num) : m % 10 < 10)]
  omega

theorem pad3_length (m : ℕ) : (pad3 m).length = 3 := rfl

theorem pad3_ne_nil (m : ℕ) : pad3 m ≠ [] := by
  simp [pad3]

theorem digit_ne_minus {c : Char} (h : c.isDigit = true) : c ≠ '-' := by
  rintro rfl
  cases h

theorem parseInt_fmtInt (z : ℤ) : parseInt (fmtInt z) = some z := by
  unfold fmtInt
  split
  · rename_i hz
    simp only [parseInt]
    rw [if_pos trivial,
      if_pos ⟨fmtNat_ne_nil _, List.all_eq_true.mpr fmtNat_digits⟩]
    rw [digitsVal_fmtNat]
    congr 1
    omega
  · rename_i hz
    obtain ⟨c, t, hct⟩ : ∃ c t, fmtNat z.natAbs = c :: t := by
      cases hf : fmtNat z.natAbs with
      | nil => exact absurd hf (fmtNat_ne_nil _)
      | cons c t => exact ⟨c, t, rfl⟩
    rw [hct]
    simp only [parseInt]
    have hcd : c.isDigit = true :=
      fmtNat_digits c (hct ▸ List.mem_cons_self _ _)
    rw [if_neg (digit_ne_minus hcd)]
    rw [if_pos (by rw [← hct]; exact List.all_eq_true.mpr fmtNat_digits)]
    rw [← hct, digitsVal_fmtNat]
    congr 1
    omega

theorem takeWhile_all_append {p : Char → Bool} {l1 l2 : List Char} {c0 : Char}
    (h1 : ∀ c ∈ l1, p c = true) (h2 : p c0 = false) :
    (l1 ++ c0 :: l2).takeWhile p = l1 := by
  induction l1 with
  | nil => simp [List.takeWhile, h2]
  | cons c t ih =>
    simp only [List.cons_append, List.takeWhile, h1 c (List.mem_cons_self _ _)]
    exact congrArg (c :: ·) (ih (fun d hd => h1 d (List.mem_cons_of_mem _ hd)))

theorem dropWhile_all_append {p : Char → Bool} {l1 l2 : List Char} {c0 : Char}
    (h1 : ∀ c ∈ l1, p c = true) (h2 : p c0 = false) :
    (l1 ++ c0 :: l2).dropWhile p = c0 :: l2 := by
  induction l1 with
  | nil => simp [List.dropWhile, h2]
  | cons c t ih =>
    simp only [List.cons_append, List.dropWhile, h1 c (List.mem_cons_self _ _)]
    exact ih (fun d hd => h1 d (List.mem_cons_of_mem _ hd))

theorem parseUFloat_body {ip fp : List Char} (hip : ip ≠ [])
    (hipd : ∀ c ∈ ip, c.isDigit = true) (hfp : fp ≠ [])
    (hfpd : ∀ c ∈ fp, c.isDigit = true) :
    parseUFloat (ip ++ '.' :: fp) =
      some ((digitsVal ip : ℚ) + (digitsVal fp : ℚ) / (10 : ℚ) ^ fp.length) := by
  have hT : (ip ++ '.' :: fp).takeWhile Char.isDigit = ip :=
    takeWhile_all_append hipd (by decide)
  have hD : (ip ++ '.' :: fp).dropWhile Char.isDigit = '.' :: fp :=
    dropWhile_all_append hipd (by decide)
  simp only [parseUFloat, hT, hD]
  rw [if_pos trivial, if_pos ⟨hip, hfp, List.all_eq_true.mpr hfpd⟩]

theorem rhe_intCast (z : ℤ) : rhe (z : ℚ) = z := by
  unfold rhe
  rw [Int.floor_intCast]
  rw [if_pos (by norm_num)]

theorem parseFloat_cons (c : Char) (cs : List Char) :
    parseFloat (c :: cs) =
      if c = '-' then (parseUFloat cs).map Neg.neg
      else parseUFloat (c :: cs) := rfl

theorem parseFloat_fmt3 (q : ℚ) : parseFloat (fmt3 q) = some (rnd3 q) := by
  simp only [fmt3]
  by_cases hn : rhe (q * 1000) < 0
  · rw [if_pos hn]
    rw [List.singleton_append, List.cons_append, parseFloat_cons, if_pos rfl]
    rw [parseUFloat_body (fmtNat_ne_nil _) fmtNat_digits (pad3_ne_nil _)
      (pad3_digits (Nat.mod_lt _ (by norm_num)))]
    rw [digitsVal_fmtNat, digitsVal_pad3 (Nat.mod_lt _ (by norm_num))]
    simp only [Option.map_some']
    unfold rnd3
    congr 1
    have hm := Nat.div_add_mod (rhe (q * 1000)).natAbs 1000
    have habs : ((rhe (q * 1000)).natAbs : ℚ) = -((rhe (q * 1000) : ℤ) : ℚ) := by
      rw [Int.cast_natAbs, abs_of_neg hn]
      push_cast
      ring
    have hcast : ((rhe (q * 1000)).natAbs : ℚ) =
        1000 * (((rhe (q * 1000)).natAbs / 1000 : ℕ) : ℚ) +
          (((rhe (q * 1000)).natAbs % 1000 : ℕ) : ℚ) := by
      exact_mod_cast hm.symm
    rw [pad3_length, show ((10 : ℚ) ^ 3) = 1000 by norm_num]
    rw [eq_div_iff (by norm_num : (1000 : ℚ) ≠ 0)]
    ring_nf
    ring_nf at hcast habs
    linarith [hcast, habs]
  · rw [if_neg hn]
    simp only [List.nil_append]
    obtain ⟨c, t, hct⟩ : ∃ c t,
        fmtNat ((rhe (q * 1000)).natAbs / 1000) = c :: t := by
      cases hf : fmtNat ((rhe (q * 1000)).natAbs / 1000) with
      | nil => exact absurd hf (fmtNat_ne_nil _)
      | cons c t => exact ⟨c, t, rfl⟩
    have hcd : c.isDigit = true :=
      fmtNat_digits c (hct ▸ List.mem_cons_self _ _)
    rw [hct, List.cons_append, parseFloat_cons, if_neg (digit_ne_minus hcd)]
    rw [← List.cons_append, ← hct]
    rw [parseUFloat_body (fmtNat_ne_nil _) fmtNat_digits (pad3_ne_nil _)
      (pad3_digits (Nat.mod_lt _ (by norm_num)))]
    rw [digitsVal_fmtNat, digitsVal_pad3 (Nat.mod_lt _ (by norm_num))]
    unfold rnd3
    congr 1
    have hm := Nat.div_add_mod (rhe (q * 1000)).natAbs 1000
    have habs : ((rhe (q * 1000)).natAbs : ℚ) = ((rhe (q * 1000) : ℤ) : ℚ) := by
      rw [Int.cast_natAbs, abs_of_nonneg (le_of_not_lt hn)]
    have hcast : ((rhe (q * 1000)).natAbs : ℚ) =
        1000 * (((rhe (q * 1000)).natAbs / 1000 : ℕ) : ℚ) +
          (((rhe (q * 1000)).natAbs % 1000 : ℕ) : ℚ) := by
      exact_mod_cast hm.symm
    rw [pad3_length, show ((10 : ℚ) ^ 3) = 1000 by norm_num]
    rw [eq_div_iff (by norm_num : (1000 : ℚ) ≠ 0)]
    ring_nf
    ring_nf at hcast habs
    linarith [hcast, habs]

theorem fmt3_rnd3 (q : ℚ) : fmt3 (rnd3 q) = fmt3 q := by
  unfold fmt3 rnd3
  have h : rhe ((rhe (q * 1000) : ℚ) / 1000 * 1000) = rhe (q * 1000) := by
    rw [div_mul_cancel₀ _ (by norm_num : (1000 : ℚ) ≠ 0)]
    exact rhe_intCast _
  rw [h]

theorem fmt3_ne_nil (q : ℚ) : fmt3 q ≠ [] := by
  simp only [fmt3]
  intro h
  exact absurd (List.append_eq_nil.mp h).2 (List.cons_ne_nil _ _)

theorem fmt3_not_ws (q : ℚ) : ∀ c ∈ fmt3 q, isWS c = false := by
  intro c hc
  simp only [fmt3, List.mem_append, List.mem_cons] at hc
  rcases hc with (hc | hc) | hc | hc
  · split at hc
    · rcases List.mem_singleton.mp hc with rfl
      decide
    · cases hc
  · exact digit_not_ws (fmtNat_digits c hc)
  · subst hc
    decide
  · exact digit_not_ws (pad3_digits (Nat.mod_lt _ (by norm_num)) c hc)

theorem fmtInt_ne_nil (z : ℤ) : fmtInt z ≠ [] := by
  unfold fmtInt
  split
  · exact List.cons_ne_nil _ _
  · exact fmtNat_ne_nil _

theorem fmtInt_not_ws (z : ℤ) : ∀ c ∈ fmtInt z, isWS c = false := by
  intro c hc
  unfold fmtInt at hc
  split at hc
  · rcases List.mem_cons.mp hc with rfl | hc
    · decide
    · exact digit_not_ws (fmtNat_digits c hc)
  · exact digit_not_ws (fmtNat_digits c hc)

theorem splitWSGo_ws {s : List Char} (h : ∀ c ∈ s, isWS c = true)
    (cs : List Char) : splitWSGo (s ++ cs) [] = splitWSGo cs [] := by
  induction s with
  | nil => rfl
  | cons c t ih =>
    simp only [List.cons_append, splitWSGo, h c (List.mem_cons_self _ _),
      if_true, consTok, eq_self_iff_true]
    exact ih (fun d hd => h d (List.mem_cons_of_mem _ hd))

theorem splitWSGo_token {t : List Char} (h : ∀ c ∈ t, isWS c = false) :
    ∀ (cs acc : List Char), splitWSGo (t ++ cs) acc = splitWSGo cs (acc ++ t) := by
  induction t with
  | nil => intro cs acc; rw [List.nil_append, List.append_nil]
  | cons c t' ih =>
    intro cs acc
    simp only [List.cons_append, splitWSGo, h c (List.mem_cons_self _ _),
      if_false, Bool.false_eq_true, List.append_eq]
    rw [ih (fun d hd => h d (List.mem_cons_of_mem _ hd)) cs (acc ++ [c])]
    rw [List.append_assoc]
    rfl

theorem splitWSGo_flat (ps : List (List Char × List Char))
    (h : ∀ p ∈ ps, (p.1 ≠ [] ∧ (∀ c ∈ p.1, isWS c = true)) ∧
      (p.2 ≠ [] ∧ ∀ c ∈ p.2, isWS c = false)) :
    ∀ cur : List Char, cur ≠ [] →
      splitWSGo ((ps.map (fun p => p.1 ++ p.2)).flatten) cur =
        cur :: ps.map Prod.snd := by
  induction ps with
  | nil =>
    intro cur hcur
    simp only [List.map_nil, List.flatten_nil, splitWSGo, consTok,
      if_neg hcur]
  | cons p ps ih =>
    intro cur hcur
    obtain ⟨⟨hs, hsws⟩, ht, htws⟩ := h p (List.mem_cons_self _ _)
    obtain ⟨s, t⟩ := p
    cases s with
    | nil => exact absurd rfl hs
    | cons c0 s' =>
      simp only [List.map_cons, List.flatten_cons, List.cons_append,
        List.append_assoc]
      simp only [splitWSGo, hsws c0 (List.mem_cons_self _ _), if_true,
        consTok, if_neg hcur]
      rw [splitWSGo_ws (fun d hd => hsws d (List.mem_cons_of_mem _ hd))]
      rw [splitWSGo_token htws _ []]
      rw [List.nil_append]
      rw [ih (fun q hq => h q (List.mem_cons_of_mem _ hq)) t ht]

theorem splitWS_pre_flat (pre t0 : List Char)
    (hpre : ∀ c ∈ pre, isWS c = true) (ht0 : t0 ≠ [])
    (ht0ws : ∀ c ∈ t0, isWS c = false)
    (ps : List (List Char × List Char))
    (h : ∀ p ∈ ps, (p.1 ≠ [] ∧ (∀ c ∈ p.1, isWS c = true)) ∧
      (p.2 ≠ [] ∧ ∀ c ∈ p.2, isWS c = false)) :
    splitWS (pre ++ t0 ++ (ps.map (fun p => p.1 ++ p.2)).flatten) =
      t0 :: ps.map Prod.snd := by
  unfold splitWS
  rw [List.append_assoc, splitWSGo_ws hpre, splitWSGo_token ht0ws _ []]
  rw [List.nil_append]
  exact splitWSGo_flat ps h t0 ht0

theorem replicate_ws (n : ℕ) : ∀ c ∈ List.replicate n ' ', isWS c = true := by
  intro c hc
  rw [List.eq_of_mem_replicate hc]
  decide

theorem replicate_ne_nil_of_pos {n : ℕ} (h : 0 < n) :
    List.replicate n ' ' ≠ [] := by
  intro hEq
  have := congrArg List.length hEq
  simp only [List.length_replicate, List.length_nil] at this
  omega

theorem splitWS_headerLine (dates : List String)
    (hnames : ∀ d ∈ dates, d.data ≠ [] ∧ d.data.length ≤ 8 ∧
      ∀ c ∈ d.data, isWS c = false) :
    splitWS (headerLine dates) = "Depth".data :: dates.map String.data := by
  have hshape : headerLine dates =
      [] ++ "Depth".data ++
        ((dates.map (fun d =>
          (List.replicate (9 - d.data.length) ' ', d.data))).map
            (fun p => p.1 ++ p.2)).flatten := by
    simp only [headerLine, List.nil_append, List.map_map]
    rfl
  rw [hshape, splitWS_pre_flat]
  · rw [List.map_map]
    rfl
  · intro c hc
    cases hc
  · decide
  · decide
  · intro p hp
    obtain ⟨d, hd, rfl⟩ := List.mem_map.mp hp
    obtain ⟨h1, h2, h3⟩ := hnames d hd
    exact ⟨⟨replicate_ne_nil_of_pos (by omega), replicate_ws _⟩, h1, h3⟩

theorem splitWS_rowLine (r : ℤ × List ℚ) :
    splitWS (rowLine r) = fmtInt r.1 :: r.2.map fmt3 := by
  have hshape : rowLine r =
      List.replicate (5 - (fmtInt r.1).length) ' ' ++ fmtInt r.1 ++
        ((r.2.map (fun v =>
          (' ' :: List.replicate (8 - (fmt3 v).length) ' ', fmt3 v))).map
            (fun p => p.1 ++ p.2)).flatten := by
    simp only [rowLine, just, List.map_map]
    rfl
  rw [hshape, splitWS_pre_flat]
  · rw [List.map_map]
    rfl
  · exact replicate_ws _
  · exact fmtInt_ne_nil _
  · exact fmtInt_not_ws _
  · intro p hp
    obtain ⟨v, hv, rfl⟩ := List.mem_map.mp hp
    refine ⟨⟨List.cons_ne_nil _ _, ?_⟩, fmt3_ne_nil _, fmt3_not_ws _⟩
    intro c hc
    rcases List.mem_cons.mp hc with rfl | hc
    · decide
    · exact replicate_ws _ c hc

theorem optMapM_map {α β γ : Type} {f : β → Option γ} {g : α → β} {k : α → γ}
    {l : List α} (h : ∀ a ∈ l, f (g a) = some (k a)) :
    optMapM f (l.map g) = some (l.map k) := by
  induction l with
  | nil => rfl
  | cons a t ih =>
    simp only [List.map_cons, optMapM, h a (List.mem_cons_self _ _),
      ih (fun b hb => h b (List.mem_cons_of_mem _ hb))]

theorem parseRow_rowLine {n : ℕ} {r : ℤ × List ℚ} (hlen : r.2.length = n) :
    parseRow n (rowLine r) = some (r.1, r.2.map rnd3) := by
  unfold parseRow
  rw [splitWS_rowLine]
  simp only [parseInt_fmtInt]
  rw [if_neg (by rw [List.length_map, hlen]; omega)]
  rw [← hlen, ← List.length_map r.2 fmt3, List.take_length]
  rw [optMapM_map (fun v _ => parseFloat_fmt3 v)]
  rfl

theorem splitChGo_no_sep {sep : Char} {l : List Char} (h : sep ∉ l) :
    ∀ (cs acc : List Char),
      splitChGo sep (l ++ cs) acc = splitChGo sep cs (acc ++ l) := by
  induction l with
  | nil => intro cs acc; rw [List.nil_append, List.append_nil]
  | cons c t ih =>
    intro cs acc
    have hcs : c ≠ sep := fun hEq => h (hEq ▸ List.mem_cons_self _ _)
    simp only [List.cons_append, splitChGo, if_neg hcs, List.append_eq]
    rw [ih (fun hm => h (List.mem_cons_of_mem _ hm)) cs (acc ++ [c])]
    rw [List.append_assoc]
    rfl

theorem splitCh_joinLines {ls : List (List Char)} (hne : ls ≠ [])
    (h : ∀ l ∈ ls, '\n' ∉ l) : splitCh '\n' (joinLines ls) = ls := by
  induction ls with
  | nil => exact absurd rfl hne
  | cons l ls ih =>
    cases ls with
    | nil =>
      show splitChGo '\n' (joinLines [l]) [] = [l]
      simp only [joinLines]
      have := splitChGo_no_sep (h l (List.mem_cons_self _ _)) [] []
      rw [List.append_nil, List.nil_append] at this
      rw [this]
      rfl
    | cons l2 ls2 =>
      show splitChGo '\n' (joinLines (l :: l2 :: ls2)) [] = l :: l2 :: ls2
      have hj : joinLines (l :: l2 :: ls2) = l ++ '\n' :: joinLines (l2 :: ls2) := rfl
      rw [hj]
      have hstep := splitChGo_no_sep (h l (List.mem_cons_self _ _))
        ('\n' :: joinLines (l2 :: ls2)) []
      rw [List.nil_append] at hstep
      rw [hstep]
      simp only [splitChGo, if_pos rfl]
      exact congrArg (l :: ·)
        (ih (List.cons_ne_nil _ _) (fun m hm => h m (List.mem_cons_of_mem _ hm)))

theorem no_nl_headerLine (dates : List String)
    (hnames : ∀ d ∈ dates, d.data ≠ [] ∧ d.data.length ≤ 8 ∧
      ∀ c ∈ d.data, isWS c = false) : '\n' ∉ headerLine dates := by
  intro hmem
  unfold headerLine at hmem
  rcases List.mem_append.mp hmem with h | h
  · exact absurd h (by decide)
  · obtain ⟨l, hl, hnl⟩ := List.mem_flatten.mp h
    obtain ⟨d, hd, rfl⟩ := List.mem_map.mp hl
    rcases List.mem_append.mp hnl with h2 | h2
    · exact absurd (List.eq_of_mem_replicate h2) (by decide)
    · exact absurd ((hnames d hd).2.2 _ h2) (by decide)

theorem no_nl_rowLine (r : ℤ × List ℚ) : '\n' ∉ rowLine r := by
  intro hmem
  unfold rowLine at hmem
  rcases List.mem_append.mp hmem with h | h
  · rcases List.mem_append.mp h with h2 | h2
    · exact absurd (List.eq_of_mem_replicate h2) (by decide)
    · exact absurd (fmtInt_not_ws r.1 _ h2) (by decide)
  · obtain ⟨l, hl, hnl⟩ := List.mem_flatten.mp h
    obtain ⟨v, hv, rfl⟩ := List.mem_map.mp hl
    rcases List.mem_cons.mp hnl with h2 | h2
    · exact absurd h2 (by decide)
    · rcases List.mem_append.mp h2 with h3 | h3
      · exact absurd (List.eq_of_mem_replicate h3) (by decide)
      · exact absurd (fmt3_not_ws v _ h3) (by decide)

theorem deserialize_serialize (f : Frame)
    (hnames : ∀ d ∈ f.dates, d.data ≠ [] ∧ d.data.length ≤ 8 ∧
      ∀ c ∈ d.data, isWS c = false)
    (hlen : ∀ r ∈ f.rows, r.2.length = f.dates.length) :
    deserializeSWD (serializeSWD f) =
      some { dates := f.dates,
             rows := f.rows.map (fun r => (r.1, r.2.map rnd3)) } := by
  have hsplit : splitCh '\n' (serializeSWD f) =
      [astLine, titleLine1, titleLine2, astLine, headerLine f.dates] ++
        f.rows.map rowLine := by
    unfold serializeSWD
    refine splitCh_joinLines (by simp) ?_
    intro l hl
    rcases List.mem_append.mp hl with h | h
    · simp only [List.mem_cons, List.not_mem_nil, or_false] at h
      rcases h with rfl | rfl | rfl | rfl | rfl
      · exact by decide
      · exact by decide
      · exact by decide
      · exact by decide
      · exact no_nl_headerLine f.dates hnames
    · obtain ⟨r, hr, rfl⟩ := List.mem_map.mp h
      exact no_nl_rowLine r
  unfold deserializeSWD
  rw [hsplit]
  rw [show ([astLine, titleLine1, titleLine2, astLine, headerLine f.dates] ++
      f.rows.map rowLine).drop 4 = headerLine f.dates :: f.rows.map rowLine
    from rfl]
  show (optMapM
      (parseRow (((splitWS (headerLine f.dates)).drop 1).length))
      (f.rows.map rowLine)).map
      (fun rs =>
        ({ dates := ((splitWS (headerLine f.dates)).drop 1).map String.mk,
           rows := rs } : Frame)) =
    some { dates := f.dates,
           rows := f.rows.map (fun r => (r.1, r.2.map rnd3)) }
  rw [splitWS_headerLine f.dates hnames]
  rw [show ("Depth".data :: f.dates.map String.data).drop 1 =
    f.dates.map String.data from rfl]
  rw [List.length_map]
  rw [optMapM_map (fun r hr => parseRow_rowLine (hlen r hr))]
  rw [Option.map_some']
  congr 1
  rw [List.map_map]
  have hcomp : (String.mk ∘ String.data) = (id : String → String) :=
    funext (fun d => rfl)
  rw [hcomp, List.map_id]

theorem serializeSWD_rnd (f : Frame) :
    serializeSWD { dates := f.dates,
                   rows := f.rows.map (fun r => (r.1, r.2.map rnd3)) } =
      serializeSWD f := by
  unfold serializeSWD
  congr 1
  congr 1
  rw [List.map_map]
  refine List.map_congr_left ?_
  intro r hr
  show rowLine (r.1, r.2.map rnd3) = rowLine r
  unfold rowLine
  congr 1
  rw [List.map_map]
  refine congrArg List.flatten (List.map_congr_left ?_)
  intro v hv
  show ' ' :: just 8 (fmt3 (rnd3 v)) = ' ' :: just 8 (fmt3 v)
  rw [fmt3_rnd3]

/-- C9: for every frame of the documented `swddata` shape (nonempty,
date-string column names without whitespace and at most eight
characters, rows aligned with the columns), serializing, deserializing
and serializing again reproduces the file text exactly:
`serialize(deserialize(f)) = f` for `f` produced by the serializer.
(The nonemptiness hypotheses delimit the model: pandas `to_string`
prints an `Empty DataFrame` placeholder for a frame with no rows or no
columns, which `loadfile` cannot parse.) -/
theorem C9_roundtrip (f : Frame) (hrows : f.rows ≠ []) (hdates : f.dates ≠ [])
    (hnames : ∀ d ∈ f.dates, d.data ≠ [] ∧ d.data.length ≤ 8 ∧
      ∀ c ∈ d.data, isWS c = false)
    (hlen : ∀ r ∈ f.rows, r.2.length = f.dates.length) :
    (deserializeSWD (serializeSWD f)).map serializeSWD =
      some (serializeSWD f) := by
  rw [deserialize_serialize f hnames hlen, Option.map_some', serializeSWD_rnd]

/-- Witness for C9 on a one-date, one-layer frame. -/
theorem C9_roundtrip_witness :
    (deserializeSWD (serializeSWD
        { dates := ["2022-150"], rows := [(15, [1/5])] })).map serializeSWD =
      some (serializeSWD { dates := ["2022-150"], rows := [(15, [1/5])] }) :=
  C9_roundtrip { dates := ["2022-150"], rows := [(15, [1/5])] }
    (by decide) (by decide) (by decide) (by decide)

end PyFAO56
